import Mathlib

/-!
Verification development for the agent-evaluation framework
(`hooks_system.py`, `concurrent_evaluator.py`, `cicd_integration.py`,
`driver.py`).  Python dictionaries carrying evaluation data are embedded
as structures / association lists, numeric scores as rationals, and the
fallible parts as `Except`/`Option` values.
-/

namespace HooksSystem

/-- Status strings that hook executions produce in `hooks_system.py`:
`'success'` / `'failed'` (hook body caught its own fault), `'exception'`
(the dispatcher caught a fault escaping the hook), and the three
statuses of `ErrorHandlingHook.execute`: `'handled'`, `'unhandled'`,
`'no_error'`. -/
inductive HStatus where
  | success
  | failed
  | exception
  | handled
  | unhandled
  | no_error
deriving DecidableEq, Repr

/-- One hook-execution record, as returned by `BaseHook.execute`
implementations and by `HooksManager.execute_hooks` (the payload fields
`result`/`error`/`execution_time` are irrelevant to the counting claims
and kept as an opaque message). -/
structure HookRecord where
  hook_name : String
  status : HStatus
  message : String := ""
deriving DecidableEq, Repr

/-- The dispatcher's execution history: `execute_hooks` appends one
entry (the list of records it produced) per fire.  The other stored
fields (hook type, context, timestamp) play no role in the summary. -/
def ExecutionHistory := List (List HookRecord)

/-- Summary record returned by `HooksManager.get_execution_summary`. -/
structure ExecSummary where
  total_executions : Nat
  successful_executions : Nat
  failed_executions : Nat
  success_rate : ℚ
deriving DecidableEq, Repr

/-- Number of records with status `'success'` in a list of records. -/
def countSuccess (rs : List HookRecord) : Nat :=
  rs.countP (fun r => r.status = HStatus.success)

/-- Number of records with a status other than `'success'`. -/
def countNonSuccess (rs : List HookRecord) : Nat :=
  rs.countP (fun r => ¬ r.status = HStatus.success)

/-- Embeds `HooksManager.get_execution_summary`:
`total_executions = len(self.execution_history)` (one per `fire` call),
while `successful_executions` / `failed_executions` count the individual
records inside every history entry; the rate divides record successes by
the number of fire calls. -/
def get_execution_summary (history : List (List HookRecord)) : ExecSummary :=
  let total_executions := history.length
  let successful_executions := (history.map countSuccess).sum
  let failed_executions := (history.map countNonSuccess).sum
  { total_executions := total_executions
    successful_executions := successful_executions
    failed_executions := failed_executions
    success_rate :=
      if total_executions > 0 then
        (successful_executions : ℚ) / (total_executions : ℚ)
      else 0 }

/-- A record with status `'success'`, as produced by a succeeding hook. -/
def recS : HookRecord := { hook_name := "ok_hook", status := HStatus.success }

/-- A record with status `'failed'`, as produced by a hook whose body
caught its own exception (`IntegrationTestHook.execute` except branch). -/
def recF : HookRecord := { hook_name := "bad_hook", status := HStatus.failed }

/-- Embeds `ErrorHandlingHook.execute` record for a handled error. -/
def recH : HookRecord := { hook_name := "error_handler", status := HStatus.handled }

/-- Embeds `ErrorHandlingHook.execute` record for an unhandled error type. -/
def recU : HookRecord := { hook_name := "error_handler", status := HStatus.unhandled }

/-- Embeds `ErrorHandlingHook.execute` record when the context carries no error. -/
def recN : HookRecord := { hook_name := "error_handler", status := HStatus.no_error }

theorem countS_add_countNS (rs : List HookRecord) :
    countSuccess rs + countNonSuccess rs = rs.length := by
  induction rs with
  | nil => rfl
  | cons r t ih =>
    by_cases h : r.status = HStatus.success <;>
      simp [countSuccess, countNonSuccess, List.countP_cons, h] at ih ⊢ <;> omega

theorem countSuccess_eq_zero (rs : List HookRecord)
    (h : ∀ r ∈ rs, ¬ r.status = HStatus.success) : countSuccess rs = 0 := by
  simpa [countSuccess] using h

/-- C2: `get_execution_summary` after one `fire` call that produced one
succeeding and one failing record reports `success_rate = 1`, not `0.5`:
the numerator counts individual hook records but the denominator counts
`fire` calls (`len(self.execution_history)`), so the spec's two-hook test
value of exactly 0.5 is not what the code computes. -/
theorem summary_two_hook_fire_rate_is_one :
    get_execution_summary [[recS, recF]] =
      { total_executions := 1
        successful_executions := 1
        failed_executions := 1
        success_rate := 1 }
    ∧ (get_execution_summary [[recS, recF]]).success_rate ≠ 1 / 2 := by
  constructor
  · simp [get_execution_summary, countSuccess, countNonSuccess, recS, recF,
      List.countP_cons]
  · simp [get_execution_summary, countSuccess, countNonSuccess, recS, recF,
      List.countP_cons]

/-- C10: the summary classifies every hook record whose status is not
`'success'` as a failed execution — the per-record tally is exhaustive
(successes + failures = number of records) — and in particular a `fire`
of error-handler hooks whose records carry statuses `'handled'`,
`'unhandled'` or `'no_error'` adds all of them to `failed_executions`
and drives the reported success rate down (strictly, whenever any
success had been recorded before). -/
theorem nonsuccess_records_count_as_failures
    (history : List (List HookRecord)) (rs : List HookRecord)
    (hall : ∀ r ∈ rs, r.status = HStatus.handled ∨ r.status = HStatus.unhandled ∨
      r.status = HStatus.no_error) :
    (get_execution_summary history).successful_executions
        + (get_execution_summary history).failed_executions
      = (history.map List.length).sum
    ∧ (get_execution_summary (history ++ [rs])).failed_executions
      = (get_execution_summary history).failed_executions + rs.length
    ∧ (get_execution_summary (history ++ [rs])).success_rate
      ≤ (get_execution_summary history).success_rate
    ∧ (0 < (get_execution_summary history).successful_executions →
        (get_execution_summary (history ++ [rs])).success_rate
          < (get_execution_summary history).success_rate) := by
  have hns : ∀ r ∈ rs, ¬ r.status = HStatus.success := by
    intro r hr
    rcases hall r hr with h | h | h <;> simp [h]
  have hzero : countSuccess rs = 0 := countSuccess_eq_zero rs hns
  have hlen : countNonSuccess rs = rs.length := by
    have := countS_add_countNS rs
    omega
  refine ⟨?_, ?_, ?_, ?_⟩
  · -- exhaustive classification: per-entry success + non-success = length
    simp only [get_execution_summary]
    induction history with
    | nil => rfl
    | cons e t ih =>
      simp only [List.map_cons, List.sum_cons] at ih ⊢
      have := countS_add_countNS e
      omega
  · simp [get_execution_summary, hlen]
  · -- appending an all-non-success fire entry cannot raise the rate
    rcases Nat.eq_zero_or_pos history.length with h0 | hpos
    · have : history = [] := List.length_eq_zero.mp h0
      subst this
      simp [get_execution_summary, hzero]
    · simp only [get_execution_summary, List.map_append, List.sum_append,
        List.map_cons, List.sum_cons, List.map_nil, List.sum_nil,
        List.length_append, List.length_cons, List.length_nil, hzero]
      have h1 : (0 : Nat) < history.length + 1 := by omega
      simp only [hpos, h1, if_pos, Nat.add_zero]
      apply div_le_div_of_nonneg_left
      · positivity
      · exact_mod_cast hpos
      · exact_mod_cast Nat.le_succ _
  · intro hsucc
    have hpos : 0 < history.length := by
      by_contra h
      have : history = [] := List.length_eq_zero.mp (by omega)
      subst this
      simp [get_execution_summary] at hsucc
    simp only [get_execution_summary] at hsucc ⊢
    simp only [List.map_append, List.sum_append, List.map_cons, List.sum_cons,
      List.map_nil, List.sum_nil, List.length_append, List.length_cons,
      List.length_nil, hzero]
    have h1 : (0 : Nat) < history.length + 1 := by omega
    simp only [hpos, h1, if_pos, Nat.add_zero]
    apply div_lt_div_of_pos_left
    · exact_mod_cast hsucc
    · exact_mod_cast hpos
    · exact_mod_cast Nat.lt_succ_self _

/-- Witness for C10: after a history holding one successful record, a
fire of the three error-handler records raises the failure count to 3
and strictly lowers the success rate. -/
theorem nonsuccess_records_count_as_failures_witness :
    (get_execution_summary ([[recS]] ++ [[recH, recU, recN]])).failed_executions = 3
    ∧ (get_execution_summary ([[recS]] ++ [[recH, recU, recN]])).success_rate
        < (get_execution_summary [[recS]]).success_rate := by
  have h := nonsuccess_records_count_as_failures [[recS]] [recH, recU, recN]
    (by intro r hr; fin_cases hr <;> simp [recH, recU, recN])
  exact ⟨h.2.1.trans (by decide), h.2.2.2 (by decide)⟩

end HooksSystem

namespace ConcurrentEvaluator

/-- Turn statuses appearing in `concurrent_evaluator.py`: `'success'`,
`'failed'` (evaluator returned `None`), `'error'` (evaluator raised,
caught in `evaluate_single_turn`), `'exception'` (fault caught around
`future.result()` in `process_conversation_session`). -/
inductive TStatus where
  | success
  | failed
  | error
  | exception
deriving DecidableEq, Repr

/-- Python exceptions that the embedded code can raise. -/
inductive PyError where
  | keyError (key : String)
  | valueError (msg : String)
deriving DecidableEq, Repr

/-- Embeds `str(e)` for the embedded exceptions (Python renders a `KeyError`
as the quoted key). -/
def PyError.msg : PyError → String
  | PyError.keyError k => "'" ++ k ++ "'"
  | PyError.valueError m => m

/-- Payload returned by an evaluator capability's `run_evaluation` on
success: the keys of the result dict that the orchestrator reads.
`agent_response` may be absent (`'agent_response' in result['results']`
guard); `metrics_scores` stands for the
`evaluation_results.metrics_scores[name].score` nesting, with an absent
score dict or score key as `none`. -/
structure EvalResults where
  agent_response : Option String := none
  metrics_scores : Option (List (String × Option ℚ)) := none
deriving DecidableEq, Repr

/-- One turn-outcome dict as built by `evaluate_single_turn` /
`process_conversation_session`. -/
structure TurnRecord where
  session_id : String
  turn_id : Nat
  status : TStatus
  results : Option EvalResults := none
  error : Option String := none
deriving DecidableEq, Repr

/-- One element of the input `turns_data` list: a turn-spec dict whose
keys may each be absent. -/
structure TurnSpec where
  question : Option String := none
  ground_truth : Option String := none
  question_type : Option String := none
  metadata : Option (List (String × String)) := none
deriving DecidableEq, Repr

/-- Embeds `ConversationTurn` dataclass. -/
structure ConversationTurn where
  turn_id : Nat
  question : String
  expected_response : String
  evaluation_type : String
  metadata : List (String × String) := []
deriving DecidableEq, Repr

/-- Embeds `ConversationSession` dataclass (the context map keyed by turn
ordinal: the source key `turn_{id}_response` is determined injectively
by the ordinal, embedded as the ordinal itself). -/
structure ConversationSession where
  session_id : String
  trajectory_id : String
  turns : List ConversationTurn
  context : List (Nat × String) := []
  max_concurrent_turns : Nat := 3
deriving DecidableEq, Repr

/-- Construction of one `ConversationTurn` from the `i`-th spec inside
`create_conversation_session`: `turn_data['question']` raises `KeyError`
when absent; `ground_truth`, `question_type` and `metadata` are read
with `.get` defaults (`''`, `'COT'`, `{}`). -/
def buildTurn (i : Nat) (td : TurnSpec) : Except PyError ConversationTurn :=
  match td.question with
  | none => Except.error (PyError.keyError "question")
  | some q =>
      Except.ok
        { turn_id := i
          question := q
          expected_response := td.ground_truth.getD ""
          evaluation_type := td.question_type.getD "COT"
          metadata := td.metadata.getD [] }

/-- The `for i, turn_data in enumerate(turns_data)` loop of
`create_conversation_session`, carrying the running index. -/
def buildTurns (i : Nat) : List TurnSpec → Except PyError (List ConversationTurn)
  | [] => Except.ok []
  | td :: rest => do
      let t ← buildTurn i td
      let ts ← buildTurns (i + 1) rest
      Except.ok (t :: ts)

/-- Embeds `ConcurrentEvaluationOrchestrator.create_conversation_session`
(the fresh `uuid4` session id is an external input, passed in as
`session_id`). -/
def create_conversation_session (session_id trajectory_id : String)
    (turns_data : List TurnSpec) : Except PyError ConversationSession := do
  let turns ← buildTurns 0 turns_data
  Except.ok
    { session_id := session_id
      trajectory_id := trajectory_id
      turns := turns
      context := []
      max_concurrent_turns := 3 }

/-- The evaluator registry of `create_evaluator` (`driver.py`): the
known evaluation-type tags. -/
def evaluator_types : List String := ["RAG", "TEXT2SQL", "COT", "CUSTOM"]

/-- Embeds `create_evaluator` (`driver.py`): unknown evaluation-type tags raise
`ValueError`; construction of a known evaluator always succeeds in the
core's view (the constructor only stores fields that are present in the
embedded turn). -/
def create_evaluator (eval_type : String) : Except PyError Unit :=
  if eval_type ∈ evaluator_types then Except.ok ()
  else Except.error (PyError.valueError ("Unknown evaluation type: " ++ eval_type))

/-- Embeds `ConcurrentEvaluationOrchestrator.evaluate_single_turn`.  The
evaluator capability is taken as a function `runEval`: it either raises
(`Except.error`), returns the `None` sentinel (`Option.none`) or
produces a result.  The source's `try`/`except` around evaluator
creation and invocation becomes the outer `match` on the combined
`Except` computation. -/
def evaluate_single_turn
    (runEval : ConversationTurn → Except PyError (Option EvalResults))
    (session_id : String) (turn : ConversationTurn) : TurnRecord :=
  match (do
      let _ ← create_evaluator turn.evaluation_type
      runEval turn : Except PyError (Option EvalResults)) with
  | Except.error e =>
      { session_id := session_id, turn_id := turn.turn_id,
        status := TStatus.error, error := some e.msg }
  | Except.ok none =>
      { session_id := session_id, turn_id := turn.turn_id,
        status := TStatus.failed, error := some "Evaluation returned None" }
  | Except.ok (some r) =>
      { session_id := session_id, turn_id := turn.turn_id,
        status := TStatus.success, results := some r }

/-- Overwrite-or-append assignment on the embedded context dict
(`session.context[key] = value`). -/
def dictSet (m : List (Nat × String)) (k : Nat) (v : String) :
    List (Nat × String) :=
  if m.any (fun p => p.1 = k) then
    m.map (fun p => if p.1 = k then (k, v) else p)
  else m ++ [(k, v)]

/-- Key set of the embedded context dict. -/
def ctxKeys (m : List (Nat × String)) : List Nat := m.map (fun p => p.1)

/-- Embeds `_update_session_context`: writes the turn's agent response keyed by
the turn ordinal, only when the record carries a `results` payload that
contains an `agent_response`. -/
def update_session_context (ctx : List (Nat × String))
    (turn : ConversationTurn) (rec : TurnRecord) : List (Nat × String) :=
  match rec.results with
  | some r =>
      match r.agent_response with
      | some resp => dictSet ctx turn.turn_id resp
      | none => ctx
  | none => ctx

/-- The body of the `as_completed` collection loop in
`process_conversation_session`: append the record, and update the
session context only for status `'success'`. -/
def processStep (runTurn : ConversationTurn → TurnRecord)
    (acc : List TurnRecord × List (Nat × String)) (turn : ConversationTurn) :
    List TurnRecord × List (Nat × String) :=
  let r := runTurn turn
  (acc.1 ++ [r],
   if r.status = TStatus.success then update_session_context acc.2 turn r
   else acc.2)

/-- Embeds `process_conversation_session`: all turns are submitted; records are
collected in completion order, modelled by the `completed` list (a
permutation of the session's turns).  `runTurn` is the (total)
`evaluate_single_turn` call for each turn; the per-future exception
branch likewise yields exactly one record per turn. -/
def process_conversation_session (runTurn : ConversationTurn → TurnRecord)
    (ctx : List (Nat × String)) (completed : List ConversationTurn) :
    List TurnRecord × List (Nat × String) :=
  completed.foldl (processStep runTurn) ([], ctx)

/-- One element of the `session_results` list in
`run_concurrent_evaluations`: either a session with its per-turn
records, or the `except`-branch failure dict, which carries no
`'results'` key. -/
structure SessionResult where
  session_id : String
  turn_results : Option (List TurnRecord)
deriving DecidableEq, Repr

/-- The turn records that `_generate_evaluation_summary` iterates over:
only session results that carry a `'results'` key contribute. -/
def allTurns (srs : List SessionResult) : List TurnRecord :=
  (srs.filterMap (fun s => s.turn_results)).flatten

/-- The metric names tracked by the summary's `evaluation_scores`
dict. -/
def tracked_metrics : List String :=
  ["helpfulness", "faithfulness", "instruction_following", "overall"]

/-- Scores contributed by one turn record to a tracked metric: only
status-`'success'` records with a `metrics_scores` dict contribute, and
a metric entry counts when its lowercased name matches and it has a
`score` key. -/
def turnScores (m : String) (t : TurnRecord) : List ℚ :=
  if t.status = TStatus.success then
    match t.results with
    | some r =>
        match r.metrics_scores with
        | some ms => ms.filterMap (fun p => if p.1.toLower = m then p.2 else none)
        | none => []
    | none => []
  else []

/-- All scores recorded for a tracked metric across the batch. -/
def scoresFor (m : String) (ts : List TurnRecord) : List ℚ :=
  (ts.map (turnScores m)).flatten

/-- Summary dict produced by `_generate_evaluation_summary`. -/
structure EvalSummary where
  total_turns : Nat
  successful_turns : Nat
  failed_turns : Nat
  error_turns : Nat
  success_rate : ℚ
  average_scores : List (String × ℚ)
  total_sessions : Nat
deriving DecidableEq, Repr

/-- Embeds `_generate_evaluation_summary`: counts every turn record of every
session result that has a `'results'` key; statuses other than
`'success'`/`'failed'`/`'error'` (i.e. `'exception'`) increment no
per-status counter; the rate divides successes by total (0 when the
total is 0); averages are 0 for metrics with no recorded scores. -/
def generate_evaluation_summary (srs : List SessionResult) : EvalSummary :=
  let ts := allTurns srs
  let total_turns := ts.length
  let successful_turns := ts.countP (fun t => t.status = TStatus.success)
  let failed_turns := ts.countP (fun t => t.status = TStatus.failed)
  let error_turns := ts.countP (fun t => t.status = TStatus.error)
  { total_turns := total_turns
    successful_turns := successful_turns
    failed_turns := failed_turns
    error_turns := error_turns
    success_rate :=
      if total_turns > 0 then (successful_turns : ℚ) / (total_turns : ℚ)
      else 0
    average_scores :=
      tracked_metrics.map (fun m =>
        let scores := scoresFor m ts
        (m, if scores.length > 0 then scores.sum / (scores.length : ℚ) else 0))
    total_sessions := srs.length }

theorem countP_status_partition (ts : List TurnRecord) :
    ts.countP (fun t => t.status = TStatus.success)
      + ts.countP (fun t => t.status = TStatus.failed)
      + ts.countP (fun t => t.status = TStatus.error)
      + ts.countP (fun t => t.status = TStatus.exception)
      = ts.length := by
  induction ts with
  | nil => rfl
  | cons t rest ih =>
    cases h : t.status <;> simp [List.countP_cons, h] <;> omega

/-- C3: in every batch summary the per-status turn counts partition the
total (`'exception'` records are the only ones outside the three summary
counters), and the reported success rate is successes over total with 0
for an empty batch. -/
theorem summary_partition_and_rate (srs : List SessionResult) :
    (generate_evaluation_summary srs).successful_turns
        + (generate_evaluation_summary srs).failed_turns
        + (generate_evaluation_summary srs).error_turns
        + (allTurns srs).countP (fun t => t.status = TStatus.exception)
      = (generate_evaluation_summary srs).total_turns
    ∧ (generate_evaluation_summary srs).success_rate =
        (if 0 < (generate_evaluation_summary srs).total_turns then
          ((generate_evaluation_summary srs).successful_turns : ℚ)
            / ((generate_evaluation_summary srs).total_turns : ℚ)
        else 0) := by
  constructor
  · simpa [generate_evaluation_summary] using countP_status_partition (allTurns srs)
  · rfl

theorem buildTurns_error (i : Nat) (tds : List TurnSpec)
    (h : ∃ td ∈ tds, td.question = none) :
    buildTurns i tds = Except.error (PyError.keyError "question") := by
  induction tds generalizing i with
  | nil => simp at h
  | cons td rest ih =>
    rcases h with ⟨x, hx, hq⟩
    cases hqd : td.question with
    | none =>
      simp only [buildTurns, buildTurn, hqd]
      rfl
    | some q =>
      rcases List.mem_cons.mp hx with rfl | hmem
      · rw [hqd] at hq; cases hq
      · simp only [buildTurns, buildTurn, hqd, ih (i + 1) ⟨x, hmem, hq⟩]
        rfl

theorem buildTurns_ok (i : Nat) (tds : List TurnSpec)
    (h : ∀ td ∈ tds, td.question ≠ none) :
    ∃ ts, buildTurns i tds = Except.ok ts
      ∧ ts.length = tds.length
      ∧ ∀ j (hj : j < tds.length) (hs : j < ts.length),
          (ts.get ⟨j, hs⟩).turn_id = i + j
          ∧ (ts.get ⟨j, hs⟩).question = ((tds.get ⟨j, hj⟩).question).getD ""
          ∧ (ts.get ⟨j, hs⟩).expected_response
              = ((tds.get ⟨j, hj⟩).ground_truth).getD ""
          ∧ (ts.get ⟨j, hs⟩).evaluation_type
              = ((tds.get ⟨j, hj⟩).question_type).getD "COT" := by
  induction tds generalizing i with
  | nil => exact ⟨[], rfl, rfl, fun j hj => absurd hj (Nat.not_lt_zero j)⟩
  | cons td rest ih =>
    cases hqd : td.question with
    | none => exact absurd hqd (h td (List.mem_cons_self td rest))
    | some q =>
      obtain ⟨ts, hts, hlen, hget⟩ :=
        ih (i + 1) (fun x hx => h x (List.mem_cons_of_mem td hx))
      refine ⟨⟨i, q, td.ground_truth.getD "", td.question_type.getD "COT",
          td.metadata.getD []⟩ :: ts, ?_, by simp [hlen], ?_⟩
      · simp only [buildTurns, buildTurn, hqd, hts]
        rfl
      · intro j hj hs
        cases j with
        | zero => simp [List.get, hqd]
        | succ n =>
          have hj0 : n < rest.length := by simpa using hj
          have hs0 : n < ts.length := by simpa using hs
          have := hget n hj0 hs0
          simpa [List.get, Nat.add_assoc, Nat.add_comm 1 n] using this

/-- C4 (counterexample to the claim as stated): a turn spec that lacks
an evaluation-type tag does not fail construction — the turn is built
with the default tag `'COT'` (`turn_data.get('question_type', 'COT')`). -/
theorem missing_type_spec_builds_with_cot_default :
    create_conversation_session "sid0" "traj0"
        [{ question := some "q1" }] =
      Except.ok
        { session_id := "sid0", trajectory_id := "traj0",
          turns := [{ turn_id := 0, question := "q1", expected_response := "",
                      evaluation_type := "COT", metadata := [] }],
          context := [], max_concurrent_turns := 3 } := rfl

/-- C4 (amended): `create_conversation_session` is deterministic with
turn ordinals assigned by input order `0..n-1`; a spec lacking a
question fails the construction with a `KeyError` (the code's
`MalformedInputError`), while a spec lacking an evaluation-type tag is
built with the default tag `'COT'` instead of failing. -/
theorem create_session_ordinals_and_missing_question
    (sid tid : String) (tds : List TurnSpec) :
    ((∃ td ∈ tds, td.question = none) →
        create_conversation_session sid tid tds
          = Except.error (PyError.keyError "question"))
    ∧ ((∀ td ∈ tds, td.question ≠ none) →
        ∃ s, create_conversation_session sid tid tds = Except.ok s
          ∧ s.session_id = sid ∧ s.trajectory_id = tid
          ∧ s.turns.map (fun t => t.turn_id) = List.range tds.length
          ∧ s.turns.length = tds.length
          ∧ ∀ j (hj : j < tds.length) (hs : j < s.turns.length),
              (s.turns.get ⟨j, hs⟩).question = ((tds.get ⟨j, hj⟩).question).getD ""
              ∧ (s.turns.get ⟨j, hs⟩).evaluation_type
                  = ((tds.get ⟨j, hj⟩).question_type).getD "COT") := by
  constructor
  · intro h
    simp only [create_conversation_session, buildTurns_error 0 tds h]
    rfl
  · intro h
    obtain ⟨ts, hts, hlen, hget⟩ := buildTurns_ok 0 tds h
    refine ⟨⟨sid, tid, ts, [], 3⟩, ?_, rfl, rfl, ?_, hlen, ?_⟩
    · simp only [create_conversation_session, hts]
      rfl
    · refine List.ext_get (by simp [hlen]) ?_
      intro n h1 h2
      have hts1 : n < ts.length := by simpa using h1
      have hn : n < tds.length := by omega
      have := (hget n hn hts1).1
      simpa using this
    · intro j hj hs
      exact ⟨(hget j hj hs).2.1, (hget j hj hs).2.2.2⟩

/-- A turn-spec list whose second spec lacks a question. -/
def tdsBad : List TurnSpec := [{ question := some "a" }, { question_type := some "COT" }]

/-- A well-formed turn-spec list (second spec carries an explicit
evaluation-type tag). -/
def tdsGood : List TurnSpec :=
  [{ question := some "a" }, { question := some "b", question_type := some "RAG" }]

/-- Witness for the amended C4 at concrete inputs. -/
theorem create_session_ordinals_and_missing_question_witness :
    create_conversation_session "s0" "t0" tdsBad
        = Except.error (PyError.keyError "question")
    ∧ ∃ s, create_conversation_session "s0" "t0" tdsGood = Except.ok s
        ∧ s.session_id = "s0" ∧ s.trajectory_id = "t0"
        ∧ s.turns.map (fun t => t.turn_id) = List.range tdsGood.length
        ∧ s.turns.length = tdsGood.length
        ∧ ∀ j (hj : j < tdsGood.length) (hs : j < s.turns.length),
            (s.turns.get ⟨j, hs⟩).question
                = ((tdsGood.get ⟨j, hj⟩).question).getD ""
            ∧ (s.turns.get ⟨j, hs⟩).evaluation_type
                = ((tdsGood.get ⟨j, hj⟩).question_type).getD "COT" :=
  ⟨(create_session_ordinals_and_missing_question "s0" "t0" tdsBad).1
      ⟨{ question_type := some "COT" }, by decide, rfl⟩,
   (create_session_ordinals_and_missing_question "s0" "t0" tdsGood).2
      (by decide)⟩

/-- C5: `evaluate_single_turn` converts every capability outcome into a
turn record (it cannot raise): an unknown evaluation-type tag becomes a
status-`'error'` record carrying the `ValueError` message, a fault
raised by the capability becomes status `'error'` with the fault's
message, the `None` sentinel becomes status `'failed'` (not `'error'`),
and a result becomes status `'success'` carrying the payload. -/
theorem evaluate_single_turn_boundary
    (runEval : ConversationTurn → Except PyError (Option EvalResults))
    (sid : String) (turn : ConversationTurn) :
    (turn.evaluation_type ∉ evaluator_types →
        evaluate_single_turn runEval sid turn =
          { session_id := sid, turn_id := turn.turn_id, status := TStatus.error,
            error := some ("Unknown evaluation type: " ++ turn.evaluation_type) })
    ∧ (∀ e, turn.evaluation_type ∈ evaluator_types → runEval turn = Except.error e →
        evaluate_single_turn runEval sid turn =
          { session_id := sid, turn_id := turn.turn_id, status := TStatus.error,
            error := some e.msg })
    ∧ (turn.evaluation_type ∈ evaluator_types → runEval turn = Except.ok none →
        evaluate_single_turn runEval sid turn =
          { session_id := sid, turn_id := turn.turn_id, status := TStatus.failed,
            error := some "Evaluation returned None" })
    ∧ (∀ r, turn.evaluation_type ∈ evaluator_types → runEval turn = Except.ok (some r) →
        evaluate_single_turn runEval sid turn =
          { session_id := sid, turn_id := turn.turn_id, status := TStatus.success,
            results := some r }) := by
  refine ⟨?_, ?_, ?_, ?_⟩
  · intro hmem
    simp only [evaluate_single_turn, create_evaluator, if_neg hmem]
    rfl
  · intro e hmem he
    simp only [evaluate_single_turn, create_evaluator, if_pos hmem, he]
    rfl
  · intro hmem he
    simp only [evaluate_single_turn, create_evaluator, if_pos hmem, he]
    rfl
  · intro r hmem he
    simp only [evaluate_single_turn, create_evaluator, if_pos hmem, he]
    rfl

/-- A concrete turn with a known evaluation-type tag. -/
def turnKnown : ConversationTurn :=
  { turn_id := 0, question := "q", expected_response := "g", evaluation_type := "COT" }

/-- A concrete turn with an unrecognized evaluation-type tag. -/
def turnUnknown : ConversationTurn :=
  { turn_id := 1, question := "q", expected_response := "g", evaluation_type := "LLM" }

/-- A concrete capability result payload. -/
def resPayload : EvalResults :=
  { agent_response := some "answer", metrics_scores := some [("Helpfulness", some (4/5))] }

/-- Witness for C5: the four capability outcomes at concrete inputs. -/
theorem evaluate_single_turn_boundary_witness :
    (evaluate_single_turn (fun _ => Except.ok (some resPayload)) "s" turnUnknown).status
        = TStatus.error
    ∧ (evaluate_single_turn (fun _ => Except.error (PyError.valueError "boom")) "s"
        turnKnown).status = TStatus.error
    ∧ (evaluate_single_turn (fun _ => Except.ok none) "s" turnKnown).status
        = TStatus.failed
    ∧ (evaluate_single_turn (fun _ => Except.ok (some resPayload)) "s" turnKnown)
        = { session_id := "s", turn_id := 0, status := TStatus.success,
            results := some resPayload } := by
  refine ⟨?_, ?_, ?_, ?_⟩
  · rw [(evaluate_single_turn_boundary (fun _ => Except.ok (some resPayload)) "s"
      turnUnknown).1 (by decide)]
  · rw [(evaluate_single_turn_boundary (fun _ => Except.error
      (PyError.valueError "boom")) "s" turnKnown).2.1 (PyError.valueError "boom")
      (by decide) rfl]
  · rw [(evaluate_single_turn_boundary (fun _ => Except.ok none) "s" turnKnown).2.2.1
      (by decide) rfl]
  · exact (evaluate_single_turn_boundary (fun _ => Except.ok (some resPayload)) "s"
      turnKnown).2.2.2 resPayload (by decide) rfl

/-- The agent response carried by a turn record, if any
(`result['results']['agent_response']`). -/
def recResponse (r : TurnRecord) : Option String :=
  r.results.bind (fun res => res.agent_response)

theorem mem_ctxKeys_dictSet (m : List (Nat × String)) (k : Nat) (v : String)
    (x : Nat) : x ∈ ctxKeys (dictSet m k v) ↔ x ∈ ctxKeys m ∨ x = k := by
  unfold dictSet ctxKeys
  by_cases h : m.any (fun p => p.1 = k)
  · rw [if_pos h]
    simp only [List.any_eq_true, decide_eq_true_eq] at h
    obtain ⟨p0, hp0, hpk⟩ := h
    simp only [List.map_map, List.mem_map, Function.comp]
    constructor
    · rintro ⟨p, hp, hx⟩
      by_cases hpk1 : p.1 = k
      · simp only [hpk1, if_pos rfl] at hx
        exact Or.inr hx.symm
      · simp only [if_neg hpk1] at hx
        exact Or.inl ⟨p, hp, hx⟩
    · rintro (⟨p, hp, hx⟩ | rfl)
      · by_cases hpk1 : p.1 = k
        · exact ⟨p0, hp0, by simp [hpk, ← hx, hpk1]⟩
        · exact ⟨p, hp, by rw [if_neg hpk1]; exact hx⟩
      · exact ⟨p0, hp0, by simp [hpk]⟩
  · rw [if_neg h]
    simp

theorem update_session_context_keys (ctx : List (Nat × String))
    (turn : ConversationTurn) (r : TurnRecord) (x : Nat) :
    x ∈ ctxKeys (update_session_context ctx turn r) ↔
      x ∈ ctxKeys ctx ∨ ((recResponse r).isSome = true ∧ x = turn.turn_id) := by
  unfold update_session_context recResponse
  cases hres : r.results with
  | none => simp
  | some res =>
    cases hresp : res.agent_response with
    | none => simp [Option.bind, hresp]
    | some resp => simp [Option.bind, hresp, mem_ctxKeys_dictSet]

/-- The context component of the collection fold: only the context part
of the accumulator feeds the context updates. -/
def ctxFold (runTurn : ConversationTurn → TurnRecord)
    (ctx : List (Nat × String)) (completed : List ConversationTurn) :
    List (Nat × String) :=
  completed.foldl (fun c t =>
    if (runTurn t).status = TStatus.success then
      update_session_context c t (runTurn t)
    else c) ctx

theorem process_snd_eq_ctxFold (runTurn : ConversationTurn → TurnRecord)
    (completed : List ConversationTurn) :
    ∀ (rs : List TurnRecord) (ctx : List (Nat × String)),
      (completed.foldl (processStep runTurn) (rs, ctx)).2
        = ctxFold runTurn ctx completed := by
  induction completed with
  | nil => intro rs ctx; rfl
  | cons t rest ih =>
    intro rs ctx
    simp only [List.foldl_cons, processStep, ctxFold] at ih ⊢
    exact ih _ _

theorem mem_ctxKeys_ctxFold (runTurn : ConversationTurn → TurnRecord)
    (completed : List ConversationTurn) :
    ∀ (ctx : List (Nat × String)) (x : Nat),
      x ∈ ctxKeys (ctxFold runTurn ctx completed) ↔
        x ∈ ctxKeys ctx
        ∨ ∃ t ∈ completed, t.turn_id = x ∧ (runTurn t).status = TStatus.success
            ∧ (recResponse (runTurn t)).isSome = true := by
  induction completed with
  | nil => intro ctx x; simp [ctxFold]
  | cons t rest ih =>
    intro ctx x
    simp only [ctxFold, List.foldl_cons] at ih ⊢
    rw [ih]
    by_cases hs : (runTurn t).status = TStatus.success
    · rw [if_pos hs, update_session_context_keys]
      constructor
      · rintro ((hc | ⟨hr, rfl⟩) | ⟨u, hu, hux⟩)
        · exact Or.inl hc
        · exact Or.inr ⟨t, List.mem_cons_self t rest, rfl, hs, hr⟩
        · exact Or.inr ⟨u, List.mem_cons_of_mem t hu, hux⟩
      · rintro (hc | ⟨u, hu, hux, hus, hur⟩)
        · exact Or.inl (Or.inl hc)
        · rcases List.mem_cons.mp hu with rfl | hu2
          · exact Or.inl (Or.inr ⟨hur, hux.symm⟩)
          · exact Or.inr ⟨u, hu2, hux, hus, hur⟩
    · rw [if_neg hs]
      constructor
      · rintro (hc | ⟨u, hu, hux⟩)
        · exact Or.inl hc
        · exact Or.inr ⟨u, List.mem_cons_of_mem t hu, hux⟩
      · rintro (hc | ⟨u, hu, hux, hus, hur⟩)
        · exact Or.inl hc
        · rcases List.mem_cons.mp hu with rfl | hu2
          · exact absurd hus hs
          · exact Or.inr ⟨u, hu2, hux, hus, hur⟩

/-- C9: after a session run collected in any completion order, the
context map holds exactly the ordinals of turns whose record has status
`'success'` and carries an agent response (so all ordinals when every
turn succeeds with a response); a non-`'success'` record leaves the
context untouched at its collection step; and the final key set does not
depend on the completion order. -/
theorem session_context_key_set
    (runTurn : ConversationTurn → TurnRecord)
    (turns completed : List ConversationTurn)
    (hperm : completed.Perm turns) :
    (∀ x, x ∈ ctxKeys ((process_conversation_session runTurn [] completed).2)
        ↔ ∃ t ∈ turns, t.turn_id = x ∧ (runTurn t).status = TStatus.success
            ∧ (recResponse (runTurn t)).isSome = true)
    ∧ ((∀ t ∈ turns, (runTurn t).status = TStatus.success
          ∧ (recResponse (runTurn t)).isSome = true) →
        ∀ t ∈ turns,
          t.turn_id ∈ ctxKeys ((process_conversation_session runTurn [] completed).2))
    ∧ (∀ (rs : List TurnRecord) (ctx : List (Nat × String)) (t : ConversationTurn),
        (runTurn t).status ≠ TStatus.success →
          (processStep runTurn (rs, ctx) t).2 = ctx)
    ∧ (∀ completed2, completed2.Perm turns →
        ∀ x, x ∈ ctxKeys ((process_conversation_session runTurn [] completed2).2)
          ↔ x ∈ ctxKeys ((process_conversation_session runTurn [] completed).2)) := by
  have hchar : ∀ (c : List ConversationTurn), c.Perm turns → ∀ x,
      x ∈ ctxKeys ((process_conversation_session runTurn [] c).2)
        ↔ ∃ t ∈ turns, t.turn_id = x ∧ (runTurn t).status = TStatus.success
            ∧ (recResponse (runTurn t)).isSome = true := by
    intro c hc x
    unfold process_conversation_session
    rw [process_snd_eq_ctxFold, mem_ctxKeys_ctxFold]
    simp only [ctxKeys, List.map_nil, List.not_mem_nil, false_or]
    constructor
    · rintro ⟨t, ht, h⟩
      exact ⟨t, hc.mem_iff.mp ht, h⟩
    · rintro ⟨t, ht, h⟩
      exact ⟨t, hc.mem_iff.mpr ht, h⟩
  refine ⟨hchar completed hperm, ?_, ?_, ?_⟩
  · intro hall t ht
    exact (hchar completed hperm t.turn_id).mpr
      ⟨t, ht, rfl, (hall t ht).1, (hall t ht).2⟩
  · intro rs ctx t hns
    simp only [processStep, if_neg hns]
  · intro completed2 hc2 x
    rw [hchar completed2 hc2 x, hchar completed hperm x]

/-- A turn whose capability record succeeds with a response. -/
def turnA : ConversationTurn :=
  { turn_id := 0, question := "qa", expected_response := "", evaluation_type := "COT" }

/-- A turn whose capability record fails. -/
def turnB : ConversationTurn :=
  { turn_id := 1, question := "qb", expected_response := "", evaluation_type := "COT" }

/-- A concrete per-turn evaluation: turn 0 succeeds with a response,
turn 1 returns the `None` sentinel (status `'failed'`). -/
def runTurnW (t : ConversationTurn) : TurnRecord :=
  evaluate_single_turn
    (fun u => if u.turn_id = 0 then Except.ok (some resPayload) else Except.ok none)
    "s" t

/-- Witness for C9: collecting the two turns in reversed completion
order writes exactly the successful turn's ordinal into the context. -/
theorem session_context_key_set_witness :
    0 ∈ ctxKeys ((process_conversation_session runTurnW [] [turnB, turnA]).2)
    ∧ ¬ 1 ∈ ctxKeys ((process_conversation_session runTurnW [] [turnB, turnA]).2) := by
  have h := session_context_key_set runTurnW [turnA, turnB] [turnB, turnA] (by decide)
  constructor
  · exact (h.1 0).mpr ⟨turnA, by decide, by decide, by decide, by decide⟩
  · intro hmem
    have := (h.1 1).mp hmem
    revert this
    decide

end ConcurrentEvaluator

namespace CICD

/-- Embeds `QualityGate` dataclass with its source defaults (the
`required_metrics` default comes from `__post_init__`). -/
structure QualityGate where
  min_success_rate : ℚ := 4 / 5
  min_average_score : ℚ := 7 / 10
  max_execution_time : ℚ := 300
  max_failed_turns : Nat := 5
  required_metrics : List String :=
    ["helpfulness", "faithfulness", "instruction_following"]
deriving DecidableEq, Repr

/-- Embeds `avg_scores.get(metric, 0.0)`: dict lookup with default 0. -/
def lookupScore (scores : List (String × ℚ)) (m : String) : ℚ :=
  match scores.find? (fun p => p.1 = m) with
  | some p => p.2
  | none => 0

/-- The `checks` dict built by `_check_quality_gates`: the three fixed
checks plus one `avg_score_<metric>` entry per required metric. -/
structure GateChecks where
  success_rate : Bool
  execution_time : Bool
  failed_turns : Bool
  metric_checks : List (String × Bool)
deriving DecidableEq, Repr

/-- Return value of `_check_quality_gates` (the `thresholds` and
`actual_values` entries are verbatim copies of the inputs and are not
re-embedded). -/
structure GateResult where
  passed : Bool
  checks : GateChecks
deriving DecidableEq, Repr

/-- Embeds `CICDPipeline._check_quality_gates`.  The summary fields are passed
in directly; the source reads them from the results dict with `.get`
defaults, and `run_concurrent_evaluation` always populates them. -/
def check_quality_gates (qg : QualityGate) (success_rate : ℚ)
    (execution_time : ℚ) (failed_turns : Nat)
    (avg_scores : List (String × ℚ)) : GateResult :=
  let checks : GateChecks :=
    { success_rate := success_rate ≥ qg.min_success_rate
      execution_time := execution_time ≤ qg.max_execution_time
      failed_turns := failed_turns ≤ qg.max_failed_turns
      metric_checks := qg.required_metrics.map (fun m =>
        (m, decide (lookupScore avg_scores m ≥ qg.min_average_score))) }
  { passed := checks.success_rate && checks.execution_time &&
      checks.failed_turns && checks.metric_checks.all (fun p => p.2)
    checks := checks }

/-- C8: the gate verdict's `passed` flag is true exactly when every
individual check holds, each fixed check is the corresponding threshold
comparison, every required metric contributes its own independent check
entry, and a metric absent from the averages is compared as 0. -/
theorem quality_gate_verdict (qg : QualityGate) (sr et : ℚ) (ft : Nat)
    (scores : List (String × ℚ)) :
    ((check_quality_gates qg sr et ft scores).passed = true ↔
        ((check_quality_gates qg sr et ft scores).checks.success_rate = true
          ∧ (check_quality_gates qg sr et ft scores).checks.execution_time = true
          ∧ (check_quality_gates qg sr et ft scores).checks.failed_turns = true
          ∧ ∀ p ∈ (check_quality_gates qg sr et ft scores).checks.metric_checks,
              p.2 = true))
    ∧ (check_quality_gates qg sr et ft scores).checks.success_rate
        = decide (sr ≥ qg.min_success_rate)
    ∧ (check_quality_gates qg sr et ft scores).checks.execution_time
        = decide (et ≤ qg.max_execution_time)
    ∧ (check_quality_gates qg sr et ft scores).checks.failed_turns
        = decide (ft ≤ qg.max_failed_turns)
    ∧ (check_quality_gates qg sr et ft scores).checks.metric_checks
        = qg.required_metrics.map (fun m =>
            (m, decide (lookupScore scores m ≥ qg.min_average_score)))
    ∧ (∀ m, scores.find? (fun p => p.1 = m) = none → lookupScore scores m = 0) := by
  refine ⟨?_, rfl, rfl, rfl, rfl, ?_⟩
  · simp only [check_quality_gates, Bool.and_eq_true, List.all_eq_true]
    tauto
  · intro m hm
    simp [lookupScore, hm]

/-- Witness for C8: `minSuccessRate = 0.8` against a batch success rate
of 0.79 fails the success-rate check and the whole gate, while the
independent time and failed-turn checks still pass. -/
theorem quality_gate_verdict_witness :
    (check_quality_gates {} (79 / 100) 10 3 []).checks.success_rate = false
    ∧ (check_quality_gates {} (79 / 100) 10 3 []).passed = false
    ∧ (check_quality_gates {} (79 / 100) 10 3 []).checks.execution_time = true
    ∧ (check_quality_gates {} (79 / 100) 10 3 []).checks.failed_turns = true := by
  have h := quality_gate_verdict {} (79 / 100) 10 3 []
  have hsr : (check_quality_gates {} (79 / 100) 10 3 []).checks.success_rate = false := by
    rw [h.2.1]
    norm_num [QualityGate.min_success_rate]
  refine ⟨hsr, ?_, ?_, ?_⟩
  · cases hp : (check_quality_gates {} (79 / 100) 10 3 []).passed with
    | false => rfl
    | true => exact absurd (h.1.mp hp).1 (by simp [hsr])
  · rw [h.2.2.1]
    norm_num [QualityGate.max_execution_time]
  · rw [h.2.2.2.1]
    norm_num [QualityGate.max_failed_turns]

/-- Threshold `self.regression_threshold = 0.1`. -/
def regression_threshold : ℚ := 1 / 10

/-- Per-metric regression detail stored in the `regressions` dict. -/
structure RegressionInfo where
  baseline : ℚ
  current : ℚ
  degradation : ℚ
deriving DecidableEq, Repr

/-- Return value of `_check_performance_regression` (the
`baseline_scores` / `current_scores` / `threshold` echo fields are not
re-embedded). -/
structure RegressionResult where
  regression_detected : Bool
  regressions : List (String × RegressionInfo) := []
  reason : Option String := none
deriving DecidableEq, Repr

/-- Baseline for one metric: the mean of the metric's average score over
the recent history entries that record it (`None` when no entry does,
matching the `if scores:` guard). -/
def baselineFor (recent : List (List (String × ℚ))) (m : String) : Option ℚ :=
  let scores := recent.filterMap (fun h => (h.find? (fun p => p.1 = m)).map (fun p => p.2))
  if scores.length > 0 then some (scores.sum / (scores.length : ℚ)) else none

/-- Embeds `CICDPipeline._check_performance_regression`.  Each history entry is
embedded as its summary's `average_scores` dict (the only field the
check reads).  `self.evaluation_history[-3:]` is `drop (length - 3)`;
the source's second early return (`if not recent_history`) is
unreachable once `length ≥ 2`.  Duplicate names in `required_metrics`
would collapse in the source's dicts to identical values; the embedded
list keeps the (identical) entries. -/
def check_performance_regression (required_metrics : List String)
    (history : List (List (String × ℚ))) (current : List (String × ℚ)) :
    RegressionResult :=
  if history.length < 2 then
    { regression_detected := false
      reason := some "Insufficient history for regression detection" }
  else
    let recent := history.drop (history.length - 3)
    let regressions := required_metrics.filterMap (fun m =>
      match baselineFor recent m with
      | some b =>
          let cur := lookupScore current m
          let deg := b - cur
          if deg > regression_threshold then
            some (m, RegressionInfo.mk b cur deg)
          else none
      | none => none)
    { regression_detected := !regressions.isEmpty
      regressions := regressions }

/-- C7: no regression is ever reported with fewer than 2 prior history
entries; otherwise a metric is flagged exactly when its baseline (mean
of the metric's recorded averages over the most recent 3 entries)
exceeds the current value by strictly more than 0.10, and
`regression_detected` holds exactly when some metric is flagged. -/
theorem regression_cold_start_and_threshold (required : List String)
    (history : List (List (String × ℚ))) (current : List (String × ℚ)) :
    (history.length < 2 →
        (check_performance_regression required history current).regression_detected
          = false)
    ∧ (2 ≤ history.length →
        (∀ m info,
            (m, info) ∈ (check_performance_regression required history current).regressions →
              m ∈ required
              ∧ baselineFor (history.drop (history.length - 3)) m = some info.baseline
              ∧ info.current = lookupScore current m
              ∧ info.degradation = info.baseline - info.current
              ∧ info.degradation > 1 / 10)
        ∧ (∀ m ∈ required, ∀ b,
            baselineFor (history.drop (history.length - 3)) m = some b →
            b - lookupScore current m > 1 / 10 →
              (m, RegressionInfo.mk b (lookupScore current m) (b - lookupScore current m))
                ∈ (check_performance_regression required history current).regressions)
        ∧ ((check_performance_regression required history current).regression_detected
              = true
            ↔ (check_performance_regression required history current).regressions ≠ [])) := by
  constructor
  · intro h
    simp [check_performance_regression, h]
  · intro h
    have hne : ¬ history.length < 2 := by omega
    refine ⟨?_, ?_, ?_⟩
    · intro m info hmem
      simp only [check_performance_regression, if_neg hne, List.mem_filterMap] at hmem
      obtain ⟨a, ha, hfa⟩ := hmem
      cases hb : baselineFor (history.drop (history.length - 3)) a with
      | none => rw [hb] at hfa; cases hfa
      | some b =>
        rw [hb] at hfa
        dsimp only at hfa
        by_cases hdeg : b - lookupScore current a > regression_threshold
        · rw [if_pos hdeg] at hfa
          obtain ⟨rfl, rfl⟩ : a = m ∧ RegressionInfo.mk b (lookupScore current a)
              (b - lookupScore current a) = info := by
            exact ⟨congrArg Prod.fst (Option.some.inj hfa),
              congrArg Prod.snd (Option.some.inj hfa)⟩
          exact ⟨ha, hb, rfl, rfl, hdeg⟩
        · rw [if_neg hdeg] at hfa; cases hfa
    · intro m hm b hb hdeg
      simp only [check_performance_regression, if_neg hne, List.mem_filterMap]
      exact ⟨m, hm, by rw [hb]; simp only [if_pos (show b - lookupScore current m >
        regression_threshold from hdeg)]⟩
    · simp only [check_performance_regression, if_neg hne]
      simp [List.isEmpty_iff]

/-- Three history entries averaging 0.9 on `helpfulness`. -/
def history3 : List (List (String × ℚ)) :=
  [[("helpfulness", 9 / 10)], [("helpfulness", 9 / 10)], [("helpfulness", 9 / 10)]]

/-- Witness for C7: a current value of 0.75 against baseline 0.9 is
flagged (degradation 0.15 > 0.10), a current value of 0.82 is not
(degradation 0.08), and one history entry is never flagged. -/
theorem regression_cold_start_and_threshold_witness :
    (check_performance_regression ["helpfulness"] history3
        [("helpfulness", 3 / 4)]).regression_detected = true
    ∧ (check_performance_regression ["helpfulness"] history3
        [("helpfulness", 41 / 50)]).regression_detected = false
    ∧ (check_performance_regression ["helpfulness"] [[("helpfulness", 1 / 10)]]
        [("helpfulness", 3 / 4)]).regression_detected = false := by
  refine ⟨?_, ?_, ?_⟩
  · have h := (regression_cold_start_and_threshold ["helpfulness"] history3
      [("helpfulness", 3 / 4)]).2 (by norm_num [history3])
    have hb : baselineFor (history3.drop (history3.length - 3)) "helpfulness"
        = some (9 / 10) := by
      simp [history3, baselineFor, List.find?, List.filterMap]
      norm_num
    have hmem := h.2.1 "helpfulness" (by simp) (9 / 10) hb
      (by norm_num [lookupScore, List.find?])
    exact h.2.2.mpr (List.ne_nil_of_mem hmem)
  · simp [check_performance_regression, history3, baselineFor, lookupScore,
      List.find?, List.filterMap, regression_threshold]
    norm_num
  · exact (regression_cold_start_and_threshold ["helpfulness"]
      [[("helpfulness", 1 / 10)]] [("helpfulness", 3 / 4)]).1 (by norm_num)

/-- The fields of the `run_concurrent_evaluation` result dict that the
pipeline stages read (summary plus the timing the pipeline attaches). -/
structure EvaluationResults where
  success_rate : ℚ
  failed_turns : Nat
  average_scores : List (String × ℚ)
  execution_time : ℚ
  total_sessions : Nat := 0
  total_turns : Nat := 0
deriving DecidableEq, Repr

/-- Embeds `CICDPipeline._check_pre_pipeline_tests`: true iff every
pre-pipeline hook record has status `'success'`. -/
def check_pre_pipeline_tests (pre : List HooksSystem.HookRecord) : Bool :=
  pre.all (fun r => r.status = HooksSystem.HStatus.success)

/-- The pipeline report dict.  The early pre-pipeline failure return
carries `status`/`stage`/`error` keys; the full report built by
`_generate_pipeline_report` carries no `stage` key and embeds the
verdicts (its echo fields — summary, timing, hook results — are copies
of the inputs). -/
structure PipelineReport where
  status : String
  stage : Option String := none
  error : Option String := none
  quality_gate : Option GateResult := none
  performance_regression : Option RegressionResult := none
deriving DecidableEq, Repr

/-- Embeds `CICDPipeline._generate_pipeline_report`: overall status is
`'failed'` when the gate failed, else `'warning'` when regression was
detected, else `'passed'`. -/
def generate_pipeline_report (qgr : GateResult) (rr : RegressionResult) :
    PipelineReport :=
  let overall_status :=
    if qgr.passed = false then "failed"
    else if rr.regression_detected then "warning"
    else "passed"
  { status := overall_status
    quality_gate := some qgr
    performance_regression := some rr }

/-- Embeds `CICDPipeline.run_evaluation_pipeline`.  The pre- and post-hook
firings deliver their records (`execute_hooks` never raises — every
hook fault is already a record); the evaluation stage
(`run_concurrent_evaluation`) is an `Except` value since the source
wraps it in no `try`: a fault raised there, and only there, leaves this
function.  `history` holds the prior runs' summary average-scores (the
entries `_check_performance_regression` reads); the current run is
appended to the history only after the checks, so the checks see only
prior entries. -/
def run_evaluation_pipeline (gate : QualityGate)
    (history : List (List (String × ℚ)))
    (pre_results post_results : List HooksSystem.HookRecord)
    (evaluation : Except ConcurrentEvaluator.PyError EvaluationResults) :
    Except ConcurrentEvaluator.PyError PipelineReport :=
  if check_pre_pipeline_tests pre_results = false then
    Except.ok { status := "failed", stage := some "pre_pipeline",
                error := some "Pre-pipeline tests failed" }
  else do
    let ev ← evaluation
    let qgr := check_quality_gates gate ev.success_rate ev.execution_time
      ev.failed_turns ev.average_scores
    let rr := check_performance_regression gate.required_metrics history
      ev.average_scores
    Except.ok (generate_pipeline_report qgr rr)

/-- C1 (counterexample to the claim as stated): a fault raised inside
the evaluation stage (here the `KeyError` of a turn spec without a
question, escaping `create_conversation_session`) propagates out of
`run_evaluation_pipeline` instead of being returned as a status-
`'failed'` report with a stage tag. -/
theorem pipeline_eval_fault_escapes :
    run_evaluation_pipeline {} [] [HooksSystem.recS] []
        (Except.error (ConcurrentEvaluator.PyError.keyError "question"))
      = Except.error (ConcurrentEvaluator.PyError.keyError "question") := rfl

/-- C1 (amended): only a pre-checks failure is converted into a report
(status `'failed'`, stage tag `'pre_pipeline'`) instead of raising; once
pre-checks pass, a fault raised by the evaluation stage propagates past
the pipeline boundary, and when the evaluation stage returns, the
pipeline reports with no stage tag and status `'failed'` exactly when
the quality gate failed (else `'warning'` exactly when regression was
detected, else `'passed'`). -/
theorem pipeline_stage_behaviour (gate : QualityGate)
    (history : List (List (String × ℚ)))
    (pre post : List HooksSystem.HookRecord)
    (evaluation : Except ConcurrentEvaluator.PyError EvaluationResults) :
    (check_pre_pipeline_tests pre = false →
        run_evaluation_pipeline gate history pre post evaluation
          = Except.ok { status := "failed", stage := some "pre_pipeline",
                        error := some "Pre-pipeline tests failed" })
    ∧ (∀ e, check_pre_pipeline_tests pre = true →
        evaluation = Except.error e →
          run_evaluation_pipeline gate history pre post evaluation
            = Except.error e)
    ∧ (∀ ev, check_pre_pipeline_tests pre = true →
        evaluation = Except.ok ev →
        ∃ report,
          run_evaluation_pipeline gate history pre post evaluation
              = Except.ok report
          ∧ report.stage = none
          ∧ (report.status = "failed" ↔
              (check_quality_gates gate ev.success_rate ev.execution_time
                ev.failed_turns ev.average_scores).passed = false)
          ∧ (report.status = "warning" ↔
              ((check_quality_gates gate ev.success_rate ev.execution_time
                  ev.failed_turns ev.average_scores).passed = true
                ∧ (check_performance_regression gate.required_metrics history
                    ev.average_scores).regression_detected = true))) := by
  refine ⟨?_, ?_, ?_⟩
  · intro h
    simp only [run_evaluation_pipeline, h, if_pos]
  · intro e hpre he
    simp only [run_evaluation_pipeline, hpre, Bool.true_eq_false, if_neg, he]
    rfl
  · intro ev hpre he
    refine ⟨generate_pipeline_report
        (check_quality_gates gate ev.success_rate ev.execution_time
          ev.failed_turns ev.average_scores)
        (check_performance_regression gate.required_metrics history
          ev.average_scores), ?_, ?_, ?_, ?_⟩
    · simp only [run_evaluation_pipeline, hpre, Bool.true_eq_false, if_neg, he]
      rfl
    · simp [generate_pipeline_report]
    · unfold generate_pipeline_report
      cases hq : (check_quality_gates gate ev.success_rate ev.execution_time
          ev.failed_turns ev.average_scores).passed <;>
        cases hr : (check_performance_regression gate.required_metrics history
          ev.average_scores).regression_detected <;> simp
    · unfold generate_pipeline_report
      cases hq : (check_quality_gates gate ev.success_rate ev.execution_time
          ev.failed_turns ev.average_scores).passed <;>
        cases hr : (check_performance_regression gate.required_metrics history
          ev.average_scores).regression_detected <;> simp

/-- A concrete evaluation-stage result: one failing batch. -/
def evResW : EvaluationResults :=
  { success_rate := 1 / 2, failed_turns := 1, average_scores := [],
    execution_time := 10 }

/-- Witness for the amended C1: pre-check failure yields the tagged
report, an evaluation-stage fault propagates, and a completed
evaluation yields an untagged report. -/
theorem pipeline_stage_behaviour_witness :
    run_evaluation_pipeline {} [] [HooksSystem.recF] []
        (Except.ok evResW)
      = Except.ok { status := "failed", stage := some "pre_pipeline",
                    error := some "Pre-pipeline tests failed" }
    ∧ run_evaluation_pipeline {} [] [HooksSystem.recS] []
        (Except.error (ConcurrentEvaluator.PyError.valueError "boom"))
      = Except.error (ConcurrentEvaluator.PyError.valueError "boom")
    ∧ ∃ report,
        run_evaluation_pipeline {} [] [HooksSystem.recS] [] (Except.ok evResW)
            = Except.ok report ∧ report.stage = none := by
  refine ⟨?_, ?_, ?_⟩
  · exact (pipeline_stage_behaviour {} [] [HooksSystem.recF] []
      (Except.ok evResW)).1 (by decide)
  · exact (pipeline_stage_behaviour {} [] [HooksSystem.recS] []
      (Except.error (ConcurrentEvaluator.PyError.valueError "boom"))).2.1
      (ConcurrentEvaluator.PyError.valueError "boom") (by decide) rfl
  · obtain ⟨report, h1, h2, -⟩ := (pipeline_stage_behaviour {} [] [HooksSystem.recS] []
      (Except.ok evResW)).2.2 evResW (by decide) rfl
    exact ⟨report, h1, h2⟩

end CICD

namespace HooksSystem

/-- A registered hook (`BaseHook`): name, priority, enabled flag.  The
`regIndex` field is model bookkeeping, not a source attribute: it tags
each hook with its ordinal in the registration sequence so that the
stability of Python's `list.sort` (ties keep registration order) can be
stated; the comparator below ignores it, like the source. -/
structure Hook where
  name : String
  priority : Int
  regIndex : Nat
  enabled : Bool := true
deriving DecidableEq, Repr

/-- The sort order induced by `BaseHook.__lt__` (`self.priority >
other.priority`): ascending in that order means descending priority, so
`a` precedes `b` when `b.priority ≤ a.priority`. -/
def hookLE (a b : Hook) : Bool := decide (b.priority ≤ a.priority)

/-- Embeds `HooksManager.register_hook` restricted to one lifecycle point's
list (each `HookType` key of `self.hooks` holds its own independent
list): append when enabled, then `list.sort()` — a stable sort by
descending priority, embedded as `mergeSort`. -/
def register_hook (hooks : List Hook) (h : Hook) : List Hook :=
  if h.enabled then (hooks ++ [h]).mergeSort hookLE else hooks

/-- A sequence of `register_hook` calls at one lifecycle point, starting
from the empty list the manager initializes. -/
def registerAll (hs : List Hook) : List Hook :=
  hs.foldl register_hook []

/-- Embeds `HooksManager.execute_hooks` for one lifecycle point, with the
per-hook execution (hook body plus the dispatcher's own
fault-to-record conversion) as `run`.  With more than one hook, all are
submitted to the pool and the results are appended by iterating the
futures dict in submission order (`for future in future_to_hook`),
`future.result()` blocking per hook — so the collected order is the
stored (priority/registration) order, not completion order; a single
hook runs inline. -/
def execute_hooks (hooks : List Hook) (run : Hook → HookRecord) :
    List HookRecord :=
  if 1 < hooks.length then hooks.map run
  else
    match hooks with
    | [] => []
    | h :: _ => [run h]

/-- Target ordering of a hook list: strictly descending priority, or
equal priority with strictly increasing registration index. -/
def lexLT (a b : Hook) : Prop :=
  b.priority < a.priority ∨ (a.priority = b.priority ∧ a.regIndex < b.regIndex)

instance : DecidableRel lexLT := fun a b => by
  unfold lexLT
  infer_instance

/-- Stable insertion of `h` behind every element of priority
`≥ h.priority`: the reference result of appending `h` to an
already-sorted list and re-sorting stably. -/
def insertHook (h : Hook) : List Hook → List Hook
  | [] => [h]
  | a :: t => if hookLE a h then a :: insertHook h t else h :: a :: t

theorem lexLT_ne {a b : Hook} (h : lexLT a b) : a ≠ b := by
  rintro rfl
  rcases h with h | ⟨-, h⟩
  · exact lt_irrefl _ h
  · exact lt_irrefl _ h

theorem hookLE_trans (a b c : Hook) (h1 : hookLE a b) (h2 : hookLE b c) :
    hookLE a c := by
  simp only [hookLE, decide_eq_true_eq] at h1 h2 ⊢
  exact le_trans h2 h1

theorem hookLE_total (a b : Hook) : hookLE a b || hookLE b a := by
  simp only [hookLE]
  rcases le_total a.priority b.priority with h | h <;> simp [h]

theorem mem_insertHook {y h : Hook} {l : List Hook} :
    y ∈ insertHook h l ↔ y = h ∨ y ∈ l := by
  induction l with
  | nil => simp [insertHook]
  | cons a t ih =>
    by_cases hle : hookLE a h <;> simp [insertHook, hle, ih] <;> tauto

theorem insertHook_perm (h : Hook) (l : List Hook) :
    (insertHook h l).Perm (l ++ [h]) := by
  induction l with
  | nil => simp [insertHook]
  | cons a t ih =>
    by_cases hle : hookLE a h
    · simpa [insertHook, hle] using ih.cons a
    · simpa [insertHook, hle] using (List.perm_append_singleton h (a :: t)).symm

theorem insertHook_pairwise {h : Hook} {l : List Hook}
    (hl : l.Pairwise lexLT) (hreg : ∀ x ∈ l, x.regIndex < h.regIndex) :
    (insertHook h l).Pairwise lexLT := by
  induction l with
  | nil => simp [insertHook]
  | cons a t ih =>
    rw [List.pairwise_cons] at hl
    by_cases hle : hookLE a h
    · rw [insertHook, if_pos hle, List.pairwise_cons]
      refine ⟨?_, ih hl.2 (fun x hx => hreg x (List.mem_cons_of_mem a hx))⟩
      intro y hy
      rcases mem_insertHook.mp hy with rfl | hyt
      · simp only [hookLE, decide_eq_true_eq] at hle
        rcases lt_or_eq_of_le hle with hlt | heq
        · exact Or.inl hlt
        · exact Or.inr ⟨heq.symm, hreg a (List.mem_cons_self a t)⟩
      · exact hl.1 y hyt
    · rw [insertHook, if_neg hle, List.pairwise_cons]
      simp only [hookLE, decide_eq_true_eq, not_le] at hle
      constructor
      · intro y hy
        rcases List.mem_cons.mp hy with rfl | hyt
        · exact Or.inl hle
        · rcases hl.1 y hyt with hlt | ⟨heq, -⟩
          · exact Or.inl (lt_trans hlt hle)
          · exact Or.inl (heq ▸ hle)
      · exact List.pairwise_cons.mpr hl

theorem insertHook_stable_pairs {h : Hook} {l : List Hook}
    (hl : l.Pairwise lexLT) :
    ∀ a b : Hook, [a, b].Sublist (insertHook h l) → a.priority = b.priority →
      [a, b].Sublist (l ++ [h]) := by
  induction l with
  | nil =>
    intro a b hsub _
    rw [insertHook] at hsub
    have := hsub.length_le
    simp at this
  | cons a0 t ih =>
    rw [List.pairwise_cons] at hl
    intro a b hsub hpr
    by_cases hle : hookLE a0 h
    · rw [insertHook, if_pos hle] at hsub
      cases hsub with
      | cons _ h2 =>
        exact List.Sublist.cons a0 (ih hl.2 a b h2 hpr)
      | cons₂ _ h2 =>
        have hb := h2.subset (List.mem_cons_self b [])
        rcases mem_insertHook.mp hb with rfl | hbt
        · exact List.Sublist.cons₂ a0 (List.sublist_append_right t [b])
        · exact List.Sublist.cons₂ a0
            ((List.singleton_sublist.mpr hbt).trans
              (List.sublist_append_left t [h]))
    · rw [insertHook, if_neg hle] at hsub
      simp only [hookLE, decide_eq_true_eq, not_le] at hle
      cases hsub with
      | cons _ h2 =>
        exact h2.trans (List.sublist_append_left (a0 :: t) [h])
      | cons₂ _ h2 =>
        have hb := h2.subset (List.mem_cons_self b [])
        have hble : b.priority ≤ a0.priority := by
          rcases List.mem_cons.mp hb with rfl | hbt
          · exact le_refl _
          · rcases hl.1 b hbt with hlt | ⟨heq, -⟩
            · exact le_of_lt hlt
            · exact le_of_eq heq.symm
        exact absurd hpr (by have := lt_of_le_of_lt hble hle; omega)

/-- A `hookLE`-sorted permutation of a `lexLT`-sorted reference list
that preserves the reference's equal-priority pairs is the reference
list itself: the characterization of a stable sort's output. -/
theorem eq_of_sorted_stable :
    ∀ (r m : List Hook), r.Pairwise lexLT → m.Perm r →
      m.Pairwise (fun a b => hookLE a b = true) →
      (∀ a b : Hook, [a, b].Sublist r → a.priority = b.priority →
        [a, b].Sublist m) →
      m = r := by
  intro r
  induction r with
  | nil => intro m _ hperm _ _; exact hperm.eq_nil
  | cons c t ih =>
    intro m hr hperm hm hstab
    have hnd : (c :: t).Nodup := hr.imp (fun h => lexLT_ne h)
    have hndm : m.Nodup := hperm.nodup_iff.mpr hnd
    cases m with
    | nil => exact absurd hperm.symm.eq_nil (by simp)
    | cons d m1 =>
      rw [List.pairwise_cons] at hr
      have hdc : d = c := by
        by_contra hdc
        have hdmem : d ∈ c :: t := hperm.subset (List.mem_cons_self d m1)
        have hdt : d ∈ t := by
          rcases List.mem_cons.mp hdmem with rfl | h
          · exact absurd rfl hdc
          · exact h
        have hcm : c ∈ d :: m1 := hperm.mem_iff.mpr (List.mem_cons_self c t)
        have hcm1 : c ∈ m1 := by
          rcases List.mem_cons.mp hcm with rfl | h
          · exact absurd rfl (fun hh => hdc hh.symm)
          · exact h
        have hdcle : hookLE d c = true :=
          (List.pairwise_cons.mp hm).1 c hcm1
        have hcple : c.priority ≤ d.priority := by
          simpa [hookLE] using hdcle
        have hlex := hr.1 d hdt
        have hpr : c.priority = d.priority := by
          rcases hlex with h | ⟨h, -⟩
          · omega
          · exact h
        have hsubr : [c, d].Sublist (c :: t) :=
          List.Sublist.cons₂ c (List.singleton_sublist.mpr hdt)
        have hsubm := hstab c d hsubr hpr
        cases hsubm with
        | cons _ h2 =>
          have : d ∈ m1 := h2.subset (by simp)
          exact (List.nodup_cons.mp hndm).1 this
        | cons₂ _ h2 => exact hdc rfl
      subst hdc
      have hperm1 : m1.Perm t := hperm.cons_inv
      have hm1 : m1.Pairwise (fun a b => hookLE a b = true) :=
        (List.pairwise_cons.mp hm).2
      have hstab1 : ∀ a b : Hook, [a, b].Sublist t → a.priority = b.priority →
          [a, b].Sublist m1 := by
        intro a b hsub hpr
        have hat : a ∈ t := hsub.subset (List.mem_cons_self a [b])
        have hac : a ≠ d := by
          rintro rfl
          exact (List.nodup_cons.mp hnd).1 hat
        have hstep := hstab a b (List.Sublist.cons d hsub) hpr
        cases hstep with
        | cons _ h2 => exact h2
        | cons₂ _ h2 => exact absurd rfl hac
      exact congrArg (d :: ·) (ih m1 hr.2 hperm1 hm1 hstab1)

/-- The stable append-then-sort step of `register_hook` coincides with
stable insertion, whenever the stored list is already in the maintained
order and the new hook carries a larger registration index than
everything stored. -/
theorem mergeSort_append_singleton {l : List Hook} {h : Hook}
    (hl : l.Pairwise lexLT) (hreg : ∀ x ∈ l, x.regIndex < h.regIndex) :
    (l ++ [h]).mergeSort hookLE = insertHook h l := by
  refine eq_of_sorted_stable (insertHook h l) ((l ++ [h]).mergeSort hookLE)
    (insertHook_pairwise hl hreg)
    (((l ++ [h]).mergeSort_perm hookLE).trans (insertHook_perm h l).symm)
    ?_ ?_
  · exact List.sorted_mergeSort hookLE_trans hookLE_total (l ++ [h])
  · intro a b hsub hpr
    have hab : hookLE a b = true := by
      simp [hookLE, hpr]
    exact List.pair_sublist_mergeSort hookLE_trans hookLE_total hab
      (insertHook_stable_pairs hl a b hsub hpr)

theorem execute_hooks_eq_map (l : List Hook) (run : Hook → HookRecord) :
    execute_hooks l run = l.map run := by
  rcases l with _ | ⟨a, _ | ⟨b, t⟩⟩ <;> simp [execute_hooks]

theorem registerAll_go (hs : List Hook) :
    ∀ acc : List Hook, acc.Pairwise lexLT →
      (∀ x ∈ acc, ∀ y ∈ hs, x.regIndex < y.regIndex) →
      hs.Pairwise (fun a b => a.regIndex < b.regIndex) →
      (hs.foldl register_hook acc).Pairwise lexLT
      ∧ (hs.foldl register_hook acc).Perm
          (acc ++ hs.filter (fun h => h.enabled)) := by
  induction hs with
  | nil => intro acc hacc _ _; exact ⟨hacc, by simp⟩
  | cons h rest ih =>
    intro acc hacc hlt hhs
    rw [List.foldl_cons]
    by_cases hen : h.enabled = true
    · have hreg : ∀ x ∈ acc, x.regIndex < h.regIndex :=
        fun x hx => hlt x hx h (List.mem_cons_self h rest)
      have hstep : register_hook acc h = insertHook h acc := by
        unfold register_hook
        rw [if_pos hen, mergeSort_append_singleton hacc hreg]
      rw [hstep]
      have hlt2 : ∀ x ∈ insertHook h acc, ∀ y ∈ rest, x.regIndex < y.regIndex := by
        intro x hx y hy
        rcases mem_insertHook.mp hx with rfl | hxa
        · exact (List.pairwise_cons.mp hhs).1 y hy
        · exact hlt x hxa y (List.mem_cons_of_mem h hy)
      obtain ⟨hp, hperm⟩ := ih (insertHook h acc)
        (insertHook_pairwise hacc hreg) hlt2 (List.pairwise_cons.mp hhs).2
      refine ⟨hp, hperm.trans ?_⟩
      have hfil : (h :: rest).filter (fun x => x.enabled)
          = h :: rest.filter (fun x => x.enabled) := by
        simp [List.filter_cons, hen]
      rw [hfil]
      refine ((insertHook_perm h acc).append_right _).trans ?_
      rw [List.append_assoc]
      exact List.Perm.refl _
    · have hstep : register_hook acc h = acc := by
        unfold register_hook
        rw [if_neg hen]
      rw [hstep]
      have := ih acc hacc
        (fun x hx y hy => hlt x hx y (List.mem_cons_of_mem h hy))
        (List.pairwise_cons.mp hhs).2
      refine ⟨this.1, this.2.trans ?_⟩
      have hfil : (h :: rest).filter (fun x => x.enabled)
          = rest.filter (fun x => x.enabled) := by
        simp [List.filter_cons, hen]
      rw [hfil]

/-- C6: after any registration sequence (hooks tagged with their
registration ordinals), the stored hook list of a lifecycle point is
sorted by strictly descending priority with priority ties in
registration order, holds exactly the enabled registered hooks, and
`fire` returns one record per stored hook in exactly the stored order —
the fire is a map over the stored list, collected in submission order,
so the completion order of the concurrently executing hooks cannot
influence the returned sequence. -/
theorem hooks_sorted_and_fire_order (hs : List Hook)
    (hidx : hs.Pairwise (fun a b => a.regIndex < b.regIndex))
    (run : Hook → HookRecord) :
    (registerAll hs).Pairwise lexLT
    ∧ (registerAll hs).Perm (hs.filter (fun h => h.enabled))
    ∧ execute_hooks (registerAll hs) run = (registerAll hs).map run := by
  obtain ⟨h1, h2⟩ := registerAll_go hs [] (by simp) (by simp) hidx
  exact ⟨h1, by simpa using h2, execute_hooks_eq_map _ run⟩

/-- Hook registered first: priority 5. -/
def hkA : Hook := { name := "a", priority := 5, regIndex := 0 }

/-- Hook registered second: priority 10. -/
def hkB : Hook := { name := "b", priority := 10, regIndex := 1 }

/-- Hook registered third: priority 5, tying with `hkA`. -/
def hkC : Hook := { name := "c", priority := 5, regIndex := 2 }

/-- A concrete per-hook execution producing a success record. -/
def runHk (h : Hook) : HookRecord :=
  { hook_name := h.name, status := HStatus.success }

/-- Witness for C6: registering priorities 5, 10, 5 stores
`[b, a, c]` — descending priority, the tie `a`/`c` in registration
order — and a fire returns the records in exactly that order. -/
theorem hooks_sorted_and_fire_order_witness :
    registerAll [hkA, hkB, hkC] = [hkB, hkA, hkC]
    ∧ execute_hooks (registerAll [hkA, hkB, hkC]) runHk
        = [{ hook_name := "b", status := HStatus.success },
           { hook_name := "a", status := HStatus.success },
           { hook_name := "c", status := HStatus.success }] := by
  have hmain := hooks_sorted_and_fire_order [hkA, hkB, hkC] (by decide) runHk
  have h1 : register_hook [] hkA = [hkA] := by
    unfold register_hook
    rw [if_pos (by decide), mergeSort_append_singleton (by simp) (by simp)]
    rfl
  have h2 : register_hook [hkA] hkB = [hkB, hkA] := by
    unfold register_hook
    rw [if_pos (by decide), mergeSort_append_singleton (by decide) (by decide)]
    decide
  have h3 : register_hook [hkB, hkA] hkC = [hkB, hkA, hkC] := by
    unfold register_hook
    rw [if_pos (by decide), mergeSort_append_singleton (by decide) (by decide)]
    decide
  have hreg : registerAll [hkA, hkB, hkC] = [hkB, hkA, hkC] := by
    unfold registerAll
    rw [List.foldl_cons, h1, List.foldl_cons, h2, List.foldl_cons, h3]
    rfl
  refine ⟨hreg, ?_⟩
  rw [hmain.2.2, hreg]
  rfl

end HooksSystem
